import Mathlib

/-!
Shallow embedding of `recce_review_summary.py`, a tool that turns a recce
state document (two dbt manifest snapshots plus a list of checks) into a
Markdown review summary with a Mermaid lineage graph.

Modelling conventions:
* Python dicts keyed by strings become association lists in insertion
  order (`List (String × α)`); `d.get(k)` / `k in d` become `dget` /
  `(dget d k).isSome`.  Real inputs come from JSON objects, whose keys are
  unique, so theorems that depend on dict semantics carry `Nodup`
  hypotheses on the key lists.
* Optional JSON keys become `Option` fields; the chains
  `x.get(k1, \x7b\x7d).get(k2, default)` become `Option.bind` chains ending in
  `Option.getD`.
* A bare subscript `x[k]` raises `KeyError` when the key is absent, so
  functions performing such accesses return `Except String _` and the
  loops propagate the first error, exactly like a Python exception
  aborting the iteration.
* `datetime.now()` is modelled by passing the formatted date string as an
  argument (`current_date`).  File and CLI I/O (`load_recce_state`,
  `save_markdown`, `main`) are thin wrappers outside the logic embedded
  here.
-/

namespace RecceReview

/-- Python dict lookup `d.get(key)` on an association list: first matching
key wins (keys are unique in a real dict, enforced by `Nodup` hypotheses
where it matters). -/
def dget {α : Type} : List (String × α) → String → Option α
  | [], _ => none
  | (k, v) :: rest, key => if k = key then some v else dget rest key

/-- The key list of an association list (dict insertion order). -/
def keysOf {α : Type} (d : List (String × α)) : List String :=
  d.map Prod.fst

/-- The JSON object under a node's `"checksum"` key: `\x7b"checksum": str\x7d`,
where the inner key may itself be absent. -/
structure ChecksumObj where
  checksum : Option String
deriving Repr, DecidableEq

/-- The JSON object under a node's `"depends_on"` key: `\x7b"nodes": [id]\x7d`. -/
structure DependsOnObj where
  nodes : Option (List String)
deriving Repr, DecidableEq

/-- One node record of a manifest.  `resource_type` is accessed with
`node_data["resource_type"]` in the source (KeyError when absent), while
`checksum` and `depends_on` are only reached through `.get` chains with
defaults. -/
structure NodeData where
  resource_type : Option String
  checksum : Option ChecksumObj
  depends_on : Option DependsOnObj
deriving Repr, DecidableEq

/-- A manifest snapshot: the `"nodes"` mapping, id to record. -/
abbrev Snapshot := List (String × NodeData)

/-- The object under `"manifest"`: `\x7b"nodes": \x7b...\x7d\x7d`. -/
structure InnerManifest where
  nodes : Option Snapshot
deriving Repr, DecidableEq

/-- One side under `"artifacts"`: `\x7b"manifest": \x7b...\x7d\x7d`. -/
structure ArtifactSide where
  manifest : Option InnerManifest
deriving Repr, DecidableEq

/-- The `"artifacts"` object with its `"current"` and `"base"` sides. -/
structure Artifacts where
  current : Option ArtifactSide
  base : Option ArtifactSide
deriving Repr, DecidableEq

/-- One check record; every field is read with a bare subscript in the
source, so each is a required key modelled as `Option` plus KeyError. -/
structure Check where
  name : Option String
  is_checked : Option Bool
  description : Option String
deriving Repr, DecidableEq

/-- The whole parsed recce state document (subset consumed). -/
structure RecceState where
  checks : Option (List Check)
  artifacts : Option Artifacts
deriving Repr, DecidableEq

/-- `manifest.get("artifacts", \x7b\x7d).get("current", \x7b\x7d).get("manifest", \x7b\x7d).get("nodes", \x7b\x7d)` -/
def currentNodes (m : RecceState) : Snapshot :=
  ((((m.artifacts).bind Artifacts.current).bind ArtifactSide.manifest).bind
    InnerManifest.nodes).getD []

/-- `manifest.get("artifacts", \x7b\x7d).get("base", \x7b\x7d).get("manifest", \x7b\x7d).get("nodes", \x7b\x7d)` -/
def baseNodes (m : RecceState) : Snapshot :=
  ((((m.artifacts).bind Artifacts.base).bind ArtifactSide.manifest).bind
    InnerManifest.nodes).getD []

/-- `nodes.get(node_id, \x7b\x7d).get("checksum", \x7b\x7d).get("checksum")` -/
def nodeChecksum (nodes : Snapshot) (node_id : String) : Option String :=
  ((dget nodes node_id).bind NodeData.checksum).bind ChecksumObj.checksum

/-- `node_data.get("depends_on", \x7b\x7d).get("nodes", [])` -/
def dataDependsOn (node_data : NodeData) : List String :=
  ((node_data.depends_on).bind DependsOnObj.nodes).getD []

/-- `nodes.get(model, \x7b\x7d).get("depends_on", \x7b\x7d).get("nodes", [])` -/
def nodeDependsOn (nodes : Snapshot) (model : String) : List String :=
  (((dget nodes model).bind NodeData.depends_on).bind DependsOnObj.nodes).getD []

/-- `nodes.get(parent, \x7b\x7d).get("resource_type")` -/
def nodeResourceType (nodes : Snapshot) (parent : String) : Option String :=
  (dget nodes parent).bind NodeData.resource_type

/-- `get_model_status(node_id, nodes, base_nodes)`: added / removed /
modified / None, decided by membership and the checksum chains. -/
def get_model_status (node_id : String) (nodes base_nodes : Snapshot) : Option String :=
  let current_checksum := nodeChecksum nodes node_id
  let base_checksum := nodeChecksum base_nodes node_id
  if dget base_nodes node_id = none then some "added"
  else if dget nodes node_id = none then some "removed"
  else if current_checksum ≠ base_checksum then some "modified"
  else none

/-- First loop of `get_modified_models`: over the current nodes, require
`node_data["resource_type"]` (KeyError when absent), keep model nodes whose
status is truthy. -/
def classifyCurrent (nodes base_nodes : Snapshot) : Snapshot → Except String (List (String × String))
  | [] => .ok []
  | (node_id, node_data) :: rest =>
    match node_data.resource_type with
    | none => .error "KeyError: resource_type"
    | some rt =>
      match classifyCurrent nodes base_nodes rest with
      | .error e => .error e
      | .ok tail =>
        if rt = "model" then
          match get_model_status node_id nodes base_nodes with
          | some status => .ok ((node_id, status) :: tail)
          | none => .ok tail
        else .ok tail

/-- Second loop of `get_modified_models`: base-only model nodes are
`removed`.  The `node_id not in nodes` test short-circuits before the
`resource_type` subscript, as in the source. -/
def classifyBase (nodes : Snapshot) : Snapshot → Except String (List (String × String))
  | [] => .ok []
  | (node_id, node_data) :: rest =>
    if dget nodes node_id = none then
      match node_data.resource_type with
      | none => .error "KeyError: resource_type"
      | some rt =>
        match classifyBase nodes rest with
        | .error e => .error e
        | .ok tail =>
          if rt = "model" then .ok ((node_id, "removed") :: tail) else .ok tail
    else classifyBase nodes rest

/-- `get_modified_models(manifest)`: the classification mapping, in
insertion order (current loop first, then base-only removals). -/
def get_modified_models (manifest : RecceState) : Except String (List (String × String)) :=
  let nodes := currentNodes manifest
  let base_nodes := baseNodes manifest
  match classifyCurrent nodes base_nodes nodes with
  | .error e => .error e
  | .ok cur =>
    match classifyBase nodes base_nodes with
    | .error e => .error e
    | .ok rem => .ok (cur ++ rem)

/-- First loop of `get_relevant_dependencies`: every classified model gets
an entry holding its current parents restricted to model-typed ones. -/
def depsForClassified (nodes : Snapshot) (modified_models : List (String × String)) :
    List (String × List String) :=
  modified_models.map fun p =>
    (p.1, (nodeDependsOn nodes p.1).filter
      fun parent => nodeResourceType nodes parent = some "model")

/-- Second loop of `get_relevant_dependencies`: an unclassified current
model gets an entry exactly when some parent is classified (defaultdict
entries are created by the first append), and the entry collects the
classified parents in order.  The membership test short-circuits before
the `resource_type` subscript, as in the source. -/
def depsForUnclassified (modified_models : List (String × String)) :
    Snapshot → Except String (List (String × List String))
  | [] => .ok []
  | (model, node_data) :: rest =>
    if dget modified_models model = none then
      match node_data.resource_type with
      | none => .error "KeyError: resource_type"
      | some rt =>
        match depsForUnclassified modified_models rest with
        | .error e => .error e
        | .ok tail =>
          if rt = "model" then
            let classified_parents := (dataDependsOn node_data).filter
              fun parent => (dget modified_models parent).isSome
            if classified_parents = [] then .ok tail
            else .ok ((model, classified_parents) :: tail)
          else .ok tail
    else depsForUnclassified modified_models rest

/-- `get_relevant_dependencies(manifest, modified_models)`. -/
def get_relevant_dependencies (manifest : RecceState)
    (modified_models : List (String × String)) :
    Except String (List (String × List String)) :=
  let nodes := currentNodes manifest
  match depsForUnclassified modified_models nodes with
  | .error e => .error e
  | .ok uncl => .ok (depsForClassified nodes modified_models ++ uncl)

/-- `format_model_name(name)`: drop everything up to the second dot.
Python `name.split(".")` with the one-character separator splits at each
dot keeping empty segments, which is `String.split` on the predicate. -/
def format_model_name (name : String) : String :=
  let parts := name.split (· == '.')
  if parts.length > 2 then String.intercalate "." (parts.drop 2) else name

def ADD_COLOR : String := "#1dce00"

def MODIFIED_COLOR : String := "#ffa502"

def REMOVE_COLOR : String := "#ff067e"

def BORDER_COLOR : String := "#FFA500"

def TRANSPARENT_COLOR : String := "#cccccc"

/-- The style directive chosen by status in `generate_mermaid_graph`
(the dict literal followed by `.get(status, "")`); note the source styles
`modified` with `BORDER_COLOR`. -/
def styleLine (model status : String) : String :=
  if status = "added" then
    "style " ++ model ++ " stroke:" ++ ADD_COLOR ++ ",stroke-width:2px;\n"
  else if status = "modified" then
    "style " ++ model ++ " stroke:" ++ BORDER_COLOR ++ ",stroke-width:2px;\n"
  else if status = "removed" then
    "style " ++ model ++ " stroke:" ++ REMOVE_COLOR ++ ",stroke-width:2px;\n"
  else ""

/-- One node-declaration line plus its style directive. -/
def nodeLine (model status : String) : String :=
  model ++ "[" ++ format_model_name model ++ "]\n" ++ styleLine model status

/-- One edge line; solid when the downstream node is classified. -/
def edgeLine (models_status : List (String × String)) (model dep : String) : String :=
  if (dget models_status model).isSome then dep ++ "-->" ++ model ++ "\n"
  else dep ++ "-.->" ++ model ++ "\n"

/-- `generate_mermaid_graph(models_status, dependencies)`: header, then
node declarations with styles, then the edges. -/
def generate_mermaid_graph (models_status : List (String × String))
    (dependencies : List (String × List String)) : String :=
  let mermaid_content := "graph LR\n"
  let mermaid_content := models_status.foldl
    (fun acc p => acc ++ nodeLine p.1 p.2) mermaid_content
  let mermaid_content := dependencies.foldl
    (fun acc p => p.2.foldl (fun acc2 dep => acc2 ++ edgeLine models_status p.1 dep) acc)
    mermaid_content
  mermaid_content

/-- `sum(1 for check in checks if check["is_checked"])`, with the KeyError
of a missing `is_checked` aborting the sum. -/
def countPassed : List Check → Except String Nat
  | [] => .ok 0
  | check :: rest =>
    match check.is_checked with
    | none => .error "KeyError: is_checked"
    | some ic =>
      match countPassed rest with
      | .error e => .error e
      | .ok n => .ok ((if ic then 1 else 0) + n)

/-- The per-check `<details>` sections of `generate_markdown`, reading
`is_checked`, `description` and `name` by subscript in source order. -/
def checkSections : List Check → Except String String
  | [] => .ok ""
  | check :: rest =>
    match check.is_checked with
    | none => .error "KeyError: is_checked"
    | some ic =>
      let status_icon := if ic then "✅" else "❌"
      match check.description with
      | none => .error "KeyError: description"
      | some desc =>
        let findings := if desc.trim = "" then "(No findings)" else desc.trim
        match check.name with
        | none => .error "KeyError: name"
        | some nm =>
          match checkSections rest with
          | .error e => .error e
          | .ok tail =>
            .ok ("<details>\n" ++ "<summary><h3>" ++ nm ++ " " ++ status_icon ++
              "</h3></summary>\n\n" ++ "**Findings:**\n\n" ++ findings ++ "\n\n" ++
              "</details>\n\n" ++ tail)

/-- `generate_markdown(checks, models_status, dependencies)`; the
`datetime.now()` timestamp is the `current_date` argument. -/
def generate_markdown (current_date : String) (checks : List Check)
    (models_status : List (String × String))
    (dependencies : List (String × List String)) : Except String String :=
  match countPassed checks with
  | .error e => .error e
  | .ok passed_checks =>
    let failed_checks := checks.length - passed_checks
    let mermaid_graph := generate_mermaid_graph models_status dependencies
    match checkSections checks with
    | .error e => .error e
    | .ok sections =>
      .ok ("# 📊 Recce Review Summary\n\n" ++
        "**Generated on:** " ++ current_date ++ "\n\n" ++
        "---\n" ++
        "### **Overview of Results:**\n\n" ++
        "- ✅ Passed checks: " ++ toString passed_checks ++ "\n" ++
        "- ❌ Failed checks: " ++ toString failed_checks ++ "\n\n" ++
        "---\n" ++
        "## **Lineage Graph**\n" ++
        "Below is the lineage graph depicting the relationships between the models:\n\n" ++
        "```mermaid\n" ++ mermaid_graph ++ "```\n\n" ++
        "## **Checks Overview**\n" ++
        "Click the sections below to expand the details of each check:\n\n" ++
        sections)

/-- The loop body of `classifyCurrent` as an optional value: a current
node contributes a status exactly when it is model-typed and
`get_model_status` is truthy. -/
def classifyFn (nodes base_nodes : Snapshot) (node_id : String) (node_data : NodeData) :
    Option String :=
  if node_data.resource_type = some "model" then
    get_model_status node_id nodes base_nodes
  else none

/-- The loop body of `classifyBase` as an optional value. -/
def removedFn (nodes : Snapshot) (node_id : String) (node_data : NodeData) : Option String :=
  if dget nodes node_id = none then
    if node_data.resource_type = some "model" then some "removed" else none
  else none

/-- The loop body of `depsForUnclassified` as an optional value. -/
def unclFn (modified_models : List (String × String)) (node_id : String)
    (node_data : NodeData) : Option (List String) :=
  if dget modified_models node_id = none then
    if node_data.resource_type = some "model" then
      let classified_parents := (dataDependsOn node_data).filter
        fun parent => (dget modified_models parent).isSome
      if classified_parents = [] then none else some classified_parents
    else none
  else none

/-- The identifier denotes a model-typed node: its record in `current`
has `resource_type == "model"`, or it is absent from `current` and its
record in `base` has `resource_type == "model"`. -/
def isModelIn (nodes base_nodes : Snapshot) (id : String) : Prop :=
  match dget nodes id with
  | some nd => nd.resource_type = some "model"
  | none =>
    match dget base_nodes id with
    | some nd => nd.resource_type = some "model"
    | none => False

/-- The single node of the round-trip scenario of the spec. -/
def exampleNode : NodeData :=
  { resource_type := some "model", checksum := some ⟨some "x1"⟩, depends_on := some ⟨some []⟩ }

/-- Round-trip scenario input: `current.nodes` holds only `m.proj.a`,
`base.nodes` is empty. -/
def exampleState : RecceState :=
  ⟨some [], some ⟨some ⟨some ⟨some [("m.proj.a", exampleNode)]⟩⟩, some ⟨some ⟨some []⟩⟩⟩⟩

/-- A node that is `seed`-typed in `current` but `model`-typed in `base`. -/
def exampleState2 : RecceState :=
  ⟨some [], some
    ⟨some ⟨some ⟨some [("m.proj.b", ⟨some "seed", none, none⟩)]⟩⟩,
     some ⟨some ⟨some [("m.proj.b", ⟨some "model", none, none⟩)]⟩⟩⟩⟩

/-- A model node with no `checksum` and no `depends_on` key at all. -/
def exampleState3 : RecceState :=
  ⟨some [], some
    ⟨some ⟨some ⟨some [("m.proj.c", ⟨some "model", none, none⟩)]⟩⟩,
     some ⟨some ⟨some [("m.proj.c", ⟨some "model", none, none⟩)]⟩⟩⟩⟩

/-- A current node record with no `resource_type` key. -/
def exampleState4 : RecceState :=
  ⟨some [], some
    ⟨some ⟨some ⟨some [("m.proj.d", ⟨none, none, none⟩)]⟩⟩,
     some ⟨some ⟨some []⟩⟩⟩⟩

/-- A check record with no `is_checked` key. -/
def exampleCheck : Check :=
  { name := some "row count", is_checked := none, description := some "all good" }

end RecceReview

namespace RecceReview

/-! ### Association-list (dict) lemmas -/

theorem dget_eq_none_iff {α : Type} (l : List (String × α)) (k : String) :
    dget l k = none ↔ k ∉ keysOf l := by
  induction l with
  | nil => simp [dget, keysOf]
  | cons p rest ih =>
    obtain ⟨k', v⟩ := p
    by_cases h : k' = k
    · subst h
      simp [dget, keysOf]
    · simp [dget, keysOf, h, ih, Ne.symm h]

theorem dget_isSome_iff {α : Type} (l : List (String × α)) (k : String) :
    (dget l k).isSome ↔ k ∈ keysOf l := by
  rcases h : dget l k with _ | v
  · rw [dget_eq_none_iff] at h
    simp [h]
  · have h2 : ¬dget l k = none := by simp [h]
    rw [dget_eq_none_iff] at h2
    push_neg at h2
    simp [h2]

theorem mem_of_dget {α : Type} {l : List (String × α)} {k : String} {v : α}
    (h : dget l k = some v) : (k, v) ∈ l := by
  induction l with
  | nil => simp [dget] at h
  | cons p rest ih =>
    obtain ⟨k', v'⟩ := p
    by_cases hk : k' = k
    · subst hk
      simp [dget] at h
      simp [h]
    · simp [dget, hk] at h
      simp [ih h]

theorem dget_of_mem {α : Type} {l : List (String × α)} {k : String} {v : α}
    (hnd : (keysOf l).Nodup) (h : (k, v) ∈ l) : dget l k = some v := by
  induction l with
  | nil => simp at h
  | cons p rest ih =>
    obtain ⟨k', v'⟩ := p
    simp only [keysOf, List.map_cons, List.nodup_cons] at hnd
    rcases List.mem_cons.mp h with h1 | h1
    · rw [Prod.mk.injEq] at h1
      simp [dget, h1.1, h1.2]
    · have hk : k' ≠ k := by
        intro he
        subst he
        exact hnd.1 (by simpa [keysOf] using List.mem_map_of_mem Prod.fst h1)
      simp only [dget, if_neg hk]
      exact ih hnd.2 h1

theorem dget_append {α : Type} (l1 l2 : List (String × α)) (k : String) :
    dget (l1 ++ l2) k = match dget l1 k with
      | some v => some v
      | none => dget l2 k := by
  induction l1 with
  | nil => simp [dget]
  | cons p rest ih =>
    obtain ⟨k', v⟩ := p
    by_cases h : k' = k <;> simp [dget, h, ih]

theorem dget_mapValues {α β : Type} (f : String → α → β) (l : List (String × α)) (k : String) :
    dget (l.map fun p => (p.1, f p.1 p.2)) k = (dget l k).map (f k) := by
  induction l with
  | nil => simp [dget]
  | cons p rest ih =>
    obtain ⟨k', v⟩ := p
    by_cases h : k' = k <;> simp [dget, h, ih]

theorem keysOf_filterMapShape_sublist {α β : Type} (g : String → α → Option β)
    (l : List (String × α)) :
    (keysOf (l.filterMap fun p => (g p.1 p.2).map fun b => (p.1, b))).Sublist (keysOf l) := by
  induction l with
  | nil => simp [keysOf]
  | cons p rest ih =>
    obtain ⟨k', v⟩ := p
    rcases h : g k' v with _ | b
    · simp only [List.filterMap_cons, h, Option.map_none]
      exact ih.trans (by simp [keysOf])
    · simpa [keysOf, List.filterMap_cons, h] using ih

theorem dget_filterMapShape {α β : Type} (g : String → α → Option β)
    {l : List (String × α)} (hnd : (keysOf l).Nodup) (k : String) :
    dget (l.filterMap fun p => (g p.1 p.2).map fun b => (p.1, b)) k =
      (dget l k).bind (g k) := by
  induction l with
  | nil => simp [dget]
  | cons p rest ih =>
    obtain ⟨k', v⟩ := p
    simp only [keysOf, List.map_cons, List.nodup_cons] at hnd
    by_cases hk : k' = k
    · subst hk
      rcases h : g k' v with _ | b
      · have hnone : dget (rest.filterMap fun p => (g p.1 p.2).map fun b => (p.1, b)) k' =
            none := by
          rw [dget_eq_none_iff]
          intro hmem
          exact hnd.1 ((keysOf_filterMapShape_sublist g rest).subset hmem)
        simp [List.filterMap_cons, h, hnone, dget]
      · simp [List.filterMap_cons, h, dget]
    · rcases h : g k' v with _ | b
      · simp [List.filterMap_cons, h, dget, hk, ih hnd.2]
      · simp [List.filterMap_cons, h, dget, hk, ih hnd.2]

theorem mem_filterMapShape {α β : Type} (g : String → α → Option β)
    (l : List (String × α)) (k : String) (b : β) :
    (k, b) ∈ (l.filterMap fun p => (g p.1 p.2).map fun b => (p.1, b)) ↔
      ∃ v, (k, v) ∈ l ∧ g k v = some b := by
  rw [List.mem_filterMap]
  constructor
  · rintro ⟨⟨k', v⟩, hmem, heq⟩
    rcases h : g k' v with _ | b' <;> rw [h] at heq
    · simp at heq
    · simp only [Option.map_some, Option.some.injEq, Prod.mk.injEq] at heq
      obtain ⟨rfl, rfl⟩ := heq
      exact ⟨v, hmem, h⟩
  · rintro ⟨v, hmem, hg⟩
    exact ⟨(k, v), hmem, by simp [hg]⟩

/-! ### Loop characterizations -/

theorem classifyCurrent_ok_eq {nodes base_nodes : Snapshot} :
    ∀ {L : Snapshot} {r : List (String × String)},
      classifyCurrent nodes base_nodes L = .ok r →
      r = L.filterMap fun p => (classifyFn nodes base_nodes p.1 p.2).map fun st => (p.1, st)
  | [], r => by
    intro h
    simpa [classifyCurrent] using h.symm
  | (node_id, node_data) :: rest, r => by
    intro h
    rw [classifyCurrent] at h
    rcases hrt : node_data.resource_type with _ | rt <;> simp only [hrt] at h
    · exact absurd h (by simp)
    · rcases htail : classifyCurrent nodes base_nodes rest with e | tail <;> simp only [htail] at h
      · exact absurd h (by simp)
      · have ihr := classifyCurrent_ok_eq htail
        by_cases hm : rt = "model"
        · rw [if_pos hm] at h
          subst hm
          rcases hst : get_model_status node_id nodes base_nodes with _ | st <;>
            rw [hst] at h <;>
            simp only [Except.ok.injEq] at h <;>
            subst h <;>
            simp [List.filterMap_cons, classifyFn, hrt, hst, ihr]
        · rw [if_neg hm] at h
          simp only [Except.ok.injEq] at h
          subst h
          have hfn : classifyFn nodes base_nodes node_id node_data = none := by
            simp only [classifyFn, hrt]
            rw [if_neg (by simpa using hm)]
          simp [List.filterMap_cons, hfn, ihr]

theorem classifyCurrent_ok_iff (nodes base_nodes : Snapshot) :
    ∀ (L : Snapshot),
      (∃ r, classifyCurrent nodes base_nodes L = .ok r) ↔
        ∀ p ∈ L, (p.2.resource_type).isSome
  | [] => by simp [classifyCurrent]
  | (node_id, node_data) :: rest => by
    rw [classifyCurrent]
    rcases hrt : node_data.resource_type with _ | rt
    · simp [hrt]
    · rcases htail : classifyCurrent nodes base_nodes rest with e | tail
      · have hr := (classifyCurrent_ok_iff nodes base_nodes rest).not
        simp only [htail] at hr
        simp only [List.mem_cons]
        constructor
        · rintro ⟨r, hok⟩
          exact absurd hok (by simp)
        · intro hall
          exfalso
          apply hr.mp (by simp)
          intro p hp
          exact hall p (Or.inr hp)
      · have hr := (classifyCurrent_ok_iff nodes base_nodes rest).mp ⟨tail, htail⟩
        simp only [List.mem_cons]
        constructor
        · rintro - p (hp | hp)
          · subst hp
            simp [hrt]
          · exact hr p hp
        · intro _
          by_cases hm : rt = "model"
          · rw [if_pos hm]
            rcases hst : get_model_status node_id nodes base_nodes with _ | st <;> simp [hst]
          · rw [if_neg hm]
            simp

theorem classifyBase_ok_eq {nodes : Snapshot} :
    ∀ {L : Snapshot} {r : List (String × String)},
      classifyBase nodes L = .ok r →
      r = L.filterMap fun p => (removedFn nodes p.1 p.2).map fun st => (p.1, st)
  | [], r => by
    intro h
    simpa [classifyBase] using h.symm
  | (node_id, node_data) :: rest, r => by
    intro h
    rw [classifyBase] at h
    by_cases hin : dget nodes node_id = none
    · rw [if_pos hin] at h
      rcases hrt : node_data.resource_type with _ | rt <;> simp only [hrt] at h
      · exact absurd h (by simp)
      · rcases htail : classifyBase nodes rest with e | tail <;> simp only [htail] at h
        · exact absurd h (by simp)
        · have ihr := classifyBase_ok_eq htail
          by_cases hm : rt = "model"
          · rw [if_pos hm] at h
            subst hm
            simp only [Except.ok.injEq] at h
            subst h
            simp [List.filterMap_cons, removedFn, hin, hrt, ihr]
          · rw [if_neg hm] at h
            simp only [Except.ok.injEq] at h
            subst h
            have hfn : removedFn nodes node_id node_data = none := by
              simp only [removedFn, hin, hrt, if_pos, if_true]
              rw [if_neg (by simpa using hm)]
            simp [List.filterMap_cons, hfn, ihr]
    · rw [if_neg hin] at h
      have ihr := classifyBase_ok_eq h
      have hfn : removedFn nodes node_id node_data = none := by
        simp [removedFn, hin]
      simp [List.filterMap_cons, hfn, ihr]

theorem classifyBase_ok_iff (nodes : Snapshot) :
    ∀ (L : Snapshot),
      (∃ r, classifyBase nodes L = .ok r) ↔
        ∀ p ∈ L, dget nodes p.1 = none → (p.2.resource_type).isSome
  | [] => by simp [classifyBase]
  | (node_id, node_data) :: rest => by
    rw [classifyBase]
    by_cases hin : dget nodes node_id = none
    · rw [if_pos hin]
      rcases hrt : node_data.resource_type with _ | rt
      · simp only [List.mem_cons]
        constructor
        · rintro ⟨r, hok⟩
          exact absurd hok (by simp)
        · intro hall
          have := hall (node_id, node_data) (Or.inl rfl) hin
          simp [hrt] at this
      · rcases htail : classifyBase nodes rest with e | tail
        · have hr := (classifyBase_ok_iff nodes rest).not
          simp only [htail] at hr
          simp only [List.mem_cons]
          constructor
          · rintro ⟨r, hok⟩
            exact absurd hok (by simp)
          · intro hall
            exfalso
            apply hr.mp (by simp)
            intro p hp
            exact hall p (Or.inr hp)
        · have hr := (classifyBase_ok_iff nodes rest).mp ⟨tail, htail⟩
          simp only [List.mem_cons]
          constructor
          · rintro - p (hp | hp)
            · subst hp
              simp [hrt]
            · exact hr p hp
          · intro _
            by_cases hm : rt = "model" <;> simp [hm]
    · rw [if_neg hin]
      have hr := classifyBase_ok_iff nodes rest
      simp only [List.mem_cons] at *
      constructor
      · rintro hok p (hp | hp)
        · subst hp
          intro hc
          exact absurd hc hin
        · exact (hr.mp hok) p hp
      · intro hall
        exact hr.mpr fun p hp => hall p (Or.inr hp)

theorem depsForUnclassified_ok_eq {mm : List (String × String)} :
    ∀ {L : Snapshot} {r : List (String × List String)},
      depsForUnclassified mm L = .ok r →
      r = L.filterMap fun p => (unclFn mm p.1 p.2).map fun cp => (p.1, cp)
  | [], r => by
    intro h
    simpa [depsForUnclassified] using h.symm
  | (model, node_data) :: rest, r => by
    intro h
    rw [depsForUnclassified] at h
    by_cases hin : dget mm model = none
    · rw [if_pos hin] at h
      rcases hrt : node_data.resource_type with _ | rt <;> simp only [hrt] at h
      · exact absurd h (by simp)
      · rcases htail : depsForUnclassified mm rest with e | tail <;> simp only [htail] at h
        · exact absurd h (by simp)
        · have ihr := depsForUnclassified_ok_eq htail
          by_cases hm : rt = "model"
          · rw [if_pos hm] at h
            subst hm
            by_cases hcp : (dataDependsOn node_data).filter
                (fun parent => (dget mm parent).isSome) = []
            · rw [if_pos hcp] at h
              simp only [Except.ok.injEq] at h
              subst h
              have hfn : unclFn mm model node_data = none := by
                simp only [unclFn, hin, hrt, if_pos, if_true]
                simp [hcp]
              simp [List.filterMap_cons, hfn, ihr]
            · rw [if_neg hcp] at h
              simp only [Except.ok.injEq] at h
              subst h
              have hfn : unclFn mm model node_data = some ((dataDependsOn node_data).filter
                  fun parent => (dget mm parent).isSome) := by
                simp only [unclFn, hin, hrt, if_pos, if_true]
                simp [hcp]
              simp [List.filterMap_cons, hfn, ihr]
          · rw [if_neg hm] at h
            simp only [Except.ok.injEq] at h
            subst h
            have hfn : unclFn mm model node_data = none := by
              simp only [unclFn, hin, hrt, if_pos, if_true]
              rw [if_neg (by simpa using hm)]
            simp [List.filterMap_cons, hfn, ihr]
    · rw [if_neg hin] at h
      have ihr := depsForUnclassified_ok_eq h
      have hfn : unclFn mm model node_data = none := by
        simp [unclFn, hin]
      simp [List.filterMap_cons, hfn, ihr]

theorem depsForUnclassified_ok_iff (mm : List (String × String)) :
    ∀ (L : Snapshot),
      (∃ r, depsForUnclassified mm L = .ok r) ↔
        ∀ p ∈ L, dget mm p.1 = none → (p.2.resource_type).isSome
  | [] => by simp [depsForUnclassified]
  | (model, node_data) :: rest => by
    rw [depsForUnclassified]
    by_cases hin : dget mm model = none
    · rw [if_pos hin]
      rcases hrt : node_data.resource_type with _ | rt
      · simp only [List.mem_cons]
        constructor
        · rintro ⟨r, hok⟩
          exact absurd hok (by simp)
        · intro hall
          have := hall (model, node_data) (Or.inl rfl) hin
          simp [hrt] at this
      · rcases htail : depsForUnclassified mm rest with e | tail
        · have hr := (depsForUnclassified_ok_iff mm rest).not
          simp only [htail] at hr
          simp only [List.mem_cons]
          constructor
          · rintro ⟨r, hok⟩
            exact absurd hok (by simp)
          · intro hall
            exfalso
            apply hr.mp (by simp)
            intro p hp
            exact hall p (Or.inr hp)
        · have hr := (depsForUnclassified_ok_iff mm rest).mp ⟨tail, htail⟩
          simp only [List.mem_cons]
          constructor
          · rintro - p (hp | hp)
            · subst hp
              simp [hrt]
            · exact hr p hp
          · intro _
            by_cases hm : rt = "model"
            · subst hm
              by_cases hcp : (dataDependsOn node_data).filter
                  (fun parent => (dget mm parent).isSome) = [] <;> simp [hcp]
            · simp [hm]
    · rw [if_neg hin]
      have hr := depsForUnclassified_ok_iff mm rest
      simp only [List.mem_cons] at *
      constructor
      · rintro hok p (hp | hp)
        · subst hp
          intro hc
          exact absurd hc hin
        · exact (hr.mp hok) p hp
      · intro hall
        exact hr.mpr fun p hp => hall p (Or.inr hp)

/-! ### Master lookup lemmas for the classification and dependency maps -/

theorem get_modified_models_ok_eq {m : RecceState} {ms : List (String × String)}
    (h : get_modified_models m = .ok ms) :
    ms = ((currentNodes m).filterMap fun p =>
            (classifyFn (currentNodes m) (baseNodes m) p.1 p.2).map fun st => (p.1, st)) ++
         ((baseNodes m).filterMap fun p =>
            (removedFn (currentNodes m) p.1 p.2).map fun st => (p.1, st)) := by
  rw [get_modified_models] at h
  rcases hcur : classifyCurrent (currentNodes m) (baseNodes m) (currentNodes m) with e | cur <;>
    simp only [hcur] at h
  · exact absurd h (by simp)
  · rcases hrem : classifyBase (currentNodes m) (baseNodes m) with e | rem <;>
      simp only [hrem] at h
    · exact absurd h (by simp)
    · simp only [Except.ok.injEq] at h
      subst h
      rw [← classifyCurrent_ok_eq hcur, ← classifyBase_ok_eq hrem]

theorem dget_modified_models {m : RecceState} {ms : List (String × String)}
    (hc : (keysOf (currentNodes m)).Nodup) (hb : (keysOf (baseNodes m)).Nodup)
    (h : get_modified_models m = .ok ms) (k : String) :
    dget ms k = match dget (currentNodes m) k with
      | some nd => classifyFn (currentNodes m) (baseNodes m) k nd
      | none =>
        match dget (baseNodes m) k with
        | some nd => removedFn (currentNodes m) k nd
        | none => none := by
  rw [get_modified_models_ok_eq h, dget_append]
  have h1 : dget ((currentNodes m).filterMap fun p =>
      (classifyFn (currentNodes m) (baseNodes m) p.1 p.2).map fun st => (p.1, st)) k =
      (dget (currentNodes m) k).bind (classifyFn (currentNodes m) (baseNodes m) k) :=
    dget_filterMapShape (classifyFn (currentNodes m) (baseNodes m)) hc k
  have h2 : dget ((baseNodes m).filterMap fun p =>
      (removedFn (currentNodes m) p.1 p.2).map fun st => (p.1, st)) k =
      (dget (baseNodes m) k).bind (removedFn (currentNodes m) k) :=
    dget_filterMapShape (removedFn (currentNodes m)) hb k
  rw [h1, h2]
  rcases hcurk : dget (currentNodes m) k with _ | nd
  · rcases hbk : dget (baseNodes m) k with _ | nd2 <;> simp
  · rcases hfn : classifyFn (currentNodes m) (baseNodes m) k nd with _ | st
    · rcases hbk : dget (baseNodes m) k with _ | nd2
      · simp [hfn]
      · simp [hfn, removedFn, hcurk]
    · simp [hfn]

theorem get_relevant_dependencies_ok_eq {m : RecceState} {mm : List (String × String)}
    {ds : List (String × List String)}
    (h : get_relevant_dependencies m mm = .ok ds) :
    ds = depsForClassified (currentNodes m) mm ++
         ((currentNodes m).filterMap fun p => (unclFn mm p.1 p.2).map fun cp => (p.1, cp)) := by
  rw [get_relevant_dependencies] at h
  rcases hun : depsForUnclassified mm (currentNodes m) with e | uncl <;>
    simp only [hun] at h
  · exact absurd h (by simp)
  · simp only [Except.ok.injEq] at h
    subst h
    rw [← depsForUnclassified_ok_eq hun]

theorem dget_relevant_dependencies {m : RecceState} {mm : List (String × String)}
    {ds : List (String × List String)}
    (hc : (keysOf (currentNodes m)).Nodup)
    (h : get_relevant_dependencies m mm = .ok ds) (k : String) :
    dget ds k = match dget mm k with
      | some _ => some ((nodeDependsOn (currentNodes m) k).filter
          fun parent => nodeResourceType (currentNodes m) parent = some "model")
      | none => (dget (currentNodes m) k).bind (unclFn mm k) := by
  rw [get_relevant_dependencies_ok_eq h, dget_append]
  have h1 : dget (depsForClassified (currentNodes m) mm) k =
      (dget mm k).map (fun _ => (nodeDependsOn (currentNodes m) k).filter
        fun parent => nodeResourceType (currentNodes m) parent = some "model") :=
    dget_mapValues (fun k2 _ => (nodeDependsOn (currentNodes m) k2).filter
      fun parent => nodeResourceType (currentNodes m) parent = some "model") mm k
  have h2 : dget ((currentNodes m).filterMap fun p =>
      (unclFn mm p.1 p.2).map fun cp => (p.1, cp)) k =
      (dget (currentNodes m) k).bind (unclFn mm k) :=
    dget_filterMapShape (unclFn mm) hc k
  rw [h1, h2]
  rcases hmk : dget mm k with _ | st
  · simp
  · simp

/-! ### String lemmas: folds, join, split and intercalate -/

theorem string_empty_append (s : String) : "" ++ s = s := by
  apply String.ext
  show ("" ++ s).data = s.data
  rw [show ("" ++ s).data = "".data ++ s.data from rfl]
  rfl

theorem foldl_append_shift (L : List String) :
    ∀ init : String, L.foldl (· ++ ·) init = init ++ L.foldl (· ++ ·) "" := by
  induction L with
  | nil =>
    intro init
    simp [List.foldl]
  | cons s L ih =>
    intro init
    show L.foldl (· ++ ·) (init ++ s) = init ++ L.foldl (· ++ ·) ("" ++ s)
    rw [string_empty_append, ih (init ++ s), ih s, String.append_assoc]

theorem string_join_cons (s : String) (L : List String) :
    String.join (s :: L) = s ++ String.join L := by
  show L.foldl (· ++ ·) ("" ++ s) = s ++ L.foldl (· ++ ·) ""
  rw [string_empty_append, foldl_append_shift L s]

theorem string_join_append (L1 L2 : List String) :
    String.join (L1 ++ L2) = String.join L1 ++ String.join L2 := by
  induction L1 with
  | nil =>
    rw [List.nil_append, show String.join ([] : List String) = "" from rfl,
      string_empty_append]
  | cons s L ih =>
    rw [List.cons_append, string_join_cons, string_join_cons, ih, String.append_assoc]

theorem foldl_append_eq {β : Type} (f : β → String) (L : List β) :
    ∀ init : String, L.foldl (fun acc b => acc ++ f b) init = init ++ String.join (L.map f) := by
  induction L with
  | nil =>
    intro init
    simp [List.foldl, String.join]
  | cons b bs ih =>
    intro init
    show bs.foldl (fun acc b => acc ++ f b) (init ++ f b) = init ++ String.join (f b :: bs.map f)
    rw [ih (init ++ f b), string_join_cons, String.append_assoc]

/-- Python `name.split(".")` with the single-character separator, moved to
the character-list level. -/
theorem split_dot_eq (s : String) : s.split (· == '.') = (s.data.splitOn '.').map String.mk :=
  String.split_of_valid s (· == '.')

theorem go_data (s : String) : ∀ (as : List String) (acc : String),
    (String.intercalate.go acc s as).data = acc.data ++ as.flatMap fun a => s.data ++ a.data
  | [], acc => by simp [String.intercalate.go]
  | a :: as, acc => by
    rw [String.intercalate.go, go_data s as]
    simp [List.flatMap_map, Function.comp_def]

theorem intercalate_cons_eq {α : Type} (sep : List α) (x : List α) : ∀ (xs : List (List α)),
    List.intercalate sep (x :: xs) = x ++ xs.flatMap fun a => sep ++ a := by
  intro xs
  induction xs generalizing x with
  | nil => simp [List.intercalate, List.intersperse]
  | cons y zs ih =>
    have h := ih y
    simp only [List.intercalate, List.intersperse] at h ⊢
    simp_all

theorem intercalate_data (s : String) (L : List String) :
    (String.intercalate s L).data = List.intercalate s.data (L.map String.data) := by
  cases L with
  | nil => simp [String.intercalate, List.intercalate]
  | cons a as =>
    show (String.intercalate.go a s as).data = _
    rw [go_data, List.map, intercalate_cons_eq, List.flatMap_map]

theorem not_mem_of_mem_splitOn {xs : List Char} {x : Char} :
    ∀ {l : List Char}, l ∈ xs.splitOn x → x ∉ l := by
  induction xs with
  | nil =>
    intro l h
    rw [show ([] : List Char).splitOn x = [[]] from rfl] at h
    simp only [List.mem_singleton] at h
    simp [h]
  | cons hd tl ih =>
    intro l h
    rw [show (hd :: tl).splitOn x = (hd :: tl).splitOnP (· == x) from rfl,
      List.splitOnP_cons] at h
    by_cases hx : hd = x
    · rw [if_pos (by simp [hx])] at h
      rcases List.mem_cons.mp h with h1 | h1
      · simp [h1]
      · exact ih h1
    · rw [if_neg (by simp [hx])] at h
      rcases hsp : tl.splitOn x with _ | ⟨h0, t0⟩
      · exact absurd hsp (List.splitOnP_ne_nil _ tl)
      · rw [show tl.splitOnP (· == x) = tl.splitOn x from rfl, hsp] at h
        simp only [List.modifyHead] at h
        rcases List.mem_cons.mp h with h1 | h1
        · subst h1
          intro hmem
          rcases List.mem_cons.mp hmem with h2 | h2
          · exact hx h2.symm
          · exact ih (hsp ▸ List.mem_cons_self h0 t0) h2
        · exact ih (hsp ▸ List.mem_cons_of_mem h0 h1)

theorem format_model_name_of_le {name : String}
    (h : ¬2 < (name.split (· == '.')).length) : format_model_name name = name := by
  rw [format_model_name]
  simp only [gt_iff_lt, if_neg h]

theorem format_model_name_of_gt {name : String}
    (h : 2 < (name.split (· == '.')).length) :
    format_model_name name = String.intercalate "." ((name.split (· == '.')).drop 2) := by
  rw [format_model_name]
  simp only [gt_iff_lt, if_pos h]

theorem split_dot_length (name : String) :
    (name.split (· == '.')).length = (name.data.splitOn '.').length := by
  rw [split_dot_eq, List.length_map]

theorem format_model_name_data {name : String}
    (h : 2 < (name.data.splitOn '.').length) :
    (format_model_name name).data = List.intercalate ['.'] ((name.data.splitOn '.').drop 2) := by
  have hlen : 2 < (name.split (· == '.')).length := by rw [split_dot_length]; exact h
  rw [format_model_name_of_gt hlen, intercalate_data, split_dot_eq, ← List.map_drop,
    List.map_map]
  have hid : ∀ l : List Char, (String.data ∘ String.mk) l = l := fun _ => rfl
  rw [List.map_congr_left fun l _ => hid l, List.map_id']

/-- The nested edge fold of `generate_mermaid_graph` emits one line per
dependency pair, in order. -/
theorem edges_foldl (ms : List (String × String)) :
    ∀ (deps : List (String × List String)) (A : String),
      deps.foldl (fun acc p => p.2.foldl (fun acc2 dep => acc2 ++ edgeLine ms p.1 dep) acc) A =
        A ++ String.join (deps.flatMap fun p => p.2.map fun dep => edgeLine ms p.1 dep) := by
  intro deps
  induction deps with
  | nil =>
    intro A
    simp [List.foldl, String.join]
  | cons p ps ih =>
    intro A
    show ps.foldl _ (p.2.foldl (fun acc2 dep => acc2 ++ edgeLine ms p.1 dep) A) = _
    rw [ih, foldl_append_eq (fun dep => edgeLine ms p.1 dep) p.2 A, String.append_assoc,
      List.flatMap_cons, string_join_append]

/-! ### The claims -/

/-- Claim C1: for a model node identifier, classification assigns `added`
when it is only in current, `removed` when only in base, `modified` when
in both with differing checksums, and omits it when in both with equal
checksums. -/
theorem claim_C1 (m : RecceState)
    (hc : (keysOf (currentNodes m)).Nodup) (hb : (keysOf (baseNodes m)).Nodup)
    (ms : List (String × String)) (hms : get_modified_models m = .ok ms) :
    (∀ id nd, dget (currentNodes m) id = some nd → nd.resource_type = some "model" →
      dget (baseNodes m) id = none → dget ms id = some "added") ∧
    (∀ id nd, dget (baseNodes m) id = some nd → nd.resource_type = some "model" →
      dget (currentNodes m) id = none → dget ms id = some "removed") ∧
    (∀ id nd, dget (currentNodes m) id = some nd → nd.resource_type = some "model" →
      (dget (baseNodes m) id).isSome →
      nodeChecksum (currentNodes m) id ≠ nodeChecksum (baseNodes m) id →
      dget ms id = some "modified") ∧
    (∀ id nd, dget (currentNodes m) id = some nd → nd.resource_type = some "model" →
      (dget (baseNodes m) id).isSome →
      nodeChecksum (currentNodes m) id = nodeChecksum (baseNodes m) id →
      dget ms id = none) := by
  have key := dget_modified_models hc hb hms
  refine ⟨?_, ?_, ?_, ?_⟩
  · intro id nd h1 h2 h3
    rw [key id]
    simp [h1, classifyFn, h2, get_model_status, h3]
  · intro id nd h1 h2 h3
    rw [key id]
    simp [h1, h3, removedFn, h2]
  · intro id nd h1 h2 h3 h4
    obtain ⟨nd2, hb2⟩ := Option.isSome_iff_exists.mp h3
    rw [key id]
    simp [h1, classifyFn, h2, get_model_status, hb2, h4]
  · intro id nd h1 h2 h3 h4
    obtain ⟨nd2, hb2⟩ := Option.isSome_iff_exists.mp h3
    rw [key id]
    simp [h1, classifyFn, h2, get_model_status, hb2, h4]

theorem claim_C1_witness : dget [(("m.proj.a" : String), ("added" : String))] "m.proj.a" =
    some "added" :=
  (claim_C1 exampleState (by decide) (by decide) [("m.proj.a", "added")] rfl).1
    "m.proj.a" exampleNode rfl rfl rfl

/-- Claim C7: a node present in both snapshots whose current record is not
model-typed is ignored by classification, even when its base record is
model-typed. -/
theorem claim_C7 (m : RecceState)
    (hc : (keysOf (currentNodes m)).Nodup) (hb : (keysOf (baseNodes m)).Nodup)
    (ms : List (String × String)) (hms : get_modified_models m = .ok ms) :
    ∀ id ndc ndb s, dget (currentNodes m) id = some ndc → ndc.resource_type = some s →
      s ≠ "model" → dget (baseNodes m) id = some ndb → ndb.resource_type = some "model" →
      dget ms id = none := by
  intro id ndc ndb s h1 h2 h3 h4 h5
  rw [dget_modified_models hc hb hms id]
  simp [h1, classifyFn, h2, h3]

theorem claim_C7_witness : dget ([] : List (String × String)) "m.proj.b" = none :=
  claim_C7 exampleState2 (by decide) (by decide) [] rfl
    "m.proj.b" ⟨some "seed", none, none⟩ ⟨some "model", none, none⟩ "seed"
    rfl rfl (by decide) rfl rfl

/-- Claim C3: the rendered diagram is the header plus the node section
plus exactly one edge line per (node, dependency) pair of the dependency
mapping, the edge solid precisely when the node is classified (see
`edgeLine`). -/
theorem claim_C3 (ms : List (String × String)) (deps : List (String × List String)) :
    generate_mermaid_graph ms deps =
      ("graph LR\n" ++ String.join (ms.map fun p => nodeLine p.1 p.2)) ++
      String.join (deps.flatMap fun p => p.2.map fun dep => edgeLine ms p.1 dep) := by
  show deps.foldl (fun acc p => p.2.foldl (fun acc2 dep => acc2 ++ edgeLine ms p.1 dep) acc)
      (ms.foldl (fun acc p => acc ++ nodeLine p.1 p.2) "graph LR\n") = _
  rw [edges_foldl, foldl_append_eq (fun p => nodeLine p.1 p.2) ms "graph LR\n"]

/-- Claim C4: the round-trip scenario: one current model node `m.proj.a`
with checksum `x1` and no dependencies, empty base.  Classification is
exactly `added`, the diagram is the header plus the `m.proj.a[a]` node
line followed by the green style line, and the dependency mapping is
exactly the one empty entry. -/
theorem claim_C4 :
    get_modified_models exampleState = .ok [("m.proj.a", "added")] ∧
    get_relevant_dependencies exampleState [("m.proj.a", "added")] = .ok [("m.proj.a", [])] ∧
    generate_mermaid_graph [("m.proj.a", "added")] [("m.proj.a", [])] =
      "graph LR\n" ++ ("m.proj.a[a]\n" ++ "style m.proj.a stroke:#1dce00,stroke-width:2px;\n") := by
  refine ⟨rfl, rfl, ?_⟩
  have hf : format_model_name "m.proj.a" = "a" := by
    rw [format_model_name, split_dot_eq]
    decide
  show "graph LR\n" ++ nodeLine "m.proj.a" "added" = _
  rw [nodeLine, hf]
  decide

/-- Claim C5: display-name derivation leaves identifiers of at most two
dot-segments unchanged (hence idempotent there), strips exactly the first
two segments when there are more than two, and is not idempotent on
identifiers with more than four segments. -/
theorem claim_C5 (name : String) :
    ((name.split (· == '.')).length ≤ 2 →
      format_model_name name = name ∧
      format_model_name (format_model_name name) = format_model_name name) ∧
    (2 < (name.split (· == '.')).length →
      format_model_name name = String.intercalate "." ((name.split (· == '.')).drop 2)) ∧
    (4 < (name.split (· == '.')).length →
      format_model_name (format_model_name name) ≠ format_model_name name) := by
  refine ⟨?_, ?_, ?_⟩
  · intro h
    have h1 : format_model_name name = name := format_model_name_of_le (by omega)
    exact ⟨h1, by rw [h1, h1]⟩
  · intro h
    exact format_model_name_of_gt h
  · intro h4 heq
    have hlen : 4 < (name.data.splitOn '.').length := by
      rw [← split_dot_length]
      exact h4
    have h2 : 2 < (name.data.splitOn '.').length := by omega
    have hd1 : (format_model_name name).data =
        List.intercalate ['.'] ((name.data.splitOn '.').drop 2) := format_model_name_data h2
    have hnm2 : ∀ l ∈ (name.data.splitOn '.').drop 2, '.' ∉ l := fun l hl =>
      not_mem_of_mem_splitOn (List.mem_of_mem_drop hl)
    have hne2 : (name.data.splitOn '.').drop 2 ≠ [] := by
      intro hn
      have := congrArg List.length hn
      rw [List.length_drop] at this
      simp at this
      omega
    have hsp1 : (format_model_name name).data.splitOn '.' = (name.data.splitOn '.').drop 2 := by
      rw [hd1]
      exact List.splitOn_intercalate _ '.' hnm2 hne2
    have hlen2 : 2 < ((format_model_name name).data.splitOn '.').length := by
      rw [hsp1, List.length_drop]
      omega
    have hd2 : (format_model_name (format_model_name name)).data =
        List.intercalate ['.'] ((name.data.splitOn '.').drop 4) := by
      rw [format_model_name_data hlen2, hsp1, List.drop_drop]
    have hdata : List.intercalate ['.'] ((name.data.splitOn '.').drop 4) =
        List.intercalate ['.'] ((name.data.splitOn '.').drop 2) := by
      rw [← hd2, ← hd1, heq]
    have hnm4 : ∀ l ∈ (name.data.splitOn '.').drop 4, '.' ∉ l := fun l hl =>
      not_mem_of_mem_splitOn (List.mem_of_mem_drop hl)
    have hne4 : (name.data.splitOn '.').drop 4 ≠ [] := by
      intro hn
      have := congrArg List.length hn
      rw [List.length_drop] at this
      simp at this
      omega
    have h42 : (name.data.splitOn '.').drop 2 = (name.data.splitOn '.').drop 4 := by
      have e1 := List.splitOn_intercalate _ '.' hnm4 hne4
      rw [hdata] at e1
      rw [List.splitOn_intercalate _ '.' hnm2 hne2] at e1
      exact e1
    have hlen42 := congrArg List.length h42
    rw [List.length_drop, List.length_drop] at hlen42
    omega

theorem claim_C5_witness :
    format_model_name "a.b" = "a.b" ∧
    format_model_name (format_model_name "a.b.c.d.e") ≠ format_model_name "a.b.c.d.e" := by
  constructor
  · exact ((claim_C5 "a.b").1 (by rw [split_dot_eq]; decide)).1
  · exact (claim_C5 "a.b.c.d.e").2.2 (by rw [split_dot_eq]; decide)

/-- Claim C2: every classified node has an entry holding its model-typed
current parents (possibly the empty list); an unclassified current model
node has an entry exactly when some parent is classified, listing exactly
the classified parents; all other nodes are absent. -/
theorem claim_C2 (m : RecceState)
    (hc : (keysOf (currentNodes m)).Nodup)
    (ms : List (String × String)) (hms : get_modified_models m = .ok ms)
    (deps : List (String × List String)) (hdeps : get_relevant_dependencies m ms = .ok deps) :
    (∀ id st, dget ms id = some st →
      dget deps id = some ((nodeDependsOn (currentNodes m) id).filter
        fun parent => nodeResourceType (currentNodes m) parent = some "model")) ∧
    (∀ id nd, dget ms id = none → dget (currentNodes m) id = some nd →
      nd.resource_type = some "model" →
      dget deps id =
        (if (dataDependsOn nd).filter (fun parent => (dget ms parent).isSome) = []
          then none
          else some ((dataDependsOn nd).filter fun parent => (dget ms parent).isSome))) ∧
    (∀ id, dget ms id = none →
      (∀ nd, dget (currentNodes m) id = some nd → nd.resource_type ≠ some "model") →
      dget deps id = none) := by
  have key := dget_relevant_dependencies hc hdeps
  refine ⟨?_, ?_, ?_⟩
  · intro id st h1
    rw [key id]
    simp [h1]
  · intro id nd h1 h2 h3
    rw [key id]
    simp only [h1, h2, Option.bind_some]
    simp [unclFn, h1, h3]
  · intro id h1 h2
    rw [key id]
    simp only [h1]
    rcases hcur : dget (currentNodes m) id with _ | nd
    · simp
    · have hne := h2 nd hcur
      simp [unclFn, h1, hne]

theorem claim_C2_witness :
    dget [(("m.proj.a" : String), ([] : List String))] "m.proj.a" =
      some ((nodeDependsOn (currentNodes exampleState) "m.proj.a").filter
        fun parent => nodeResourceType (currentNodes exampleState) parent = some "model") :=
  (claim_C2 exampleState (by decide) [("m.proj.a", "added")] rfl
    [("m.proj.a", [])] rfl).1 "m.proj.a" "added" rfl

/-- Inversion for the loop body of `depsForUnclassified`. -/
theorem unclFn_eq_some {mm : List (String × String)} {k : String} {nd : NodeData}
    {l : List String} (h : unclFn mm k nd = some l) :
    dget mm k = none ∧ nd.resource_type = some "model" ∧
      l = (dataDependsOn nd).filter fun parent => (dget mm parent).isSome := by
  simp only [unclFn] at h
  by_cases h1 : dget mm k = none
  · rw [if_pos h1] at h
    by_cases h2 : nd.resource_type = some "model"
    · rw [if_pos h2] at h
      by_cases h3 : (dataDependsOn nd).filter (fun parent => (dget mm parent).isSome) = []
      · rw [if_pos h3] at h
        exact absurd h (by simp)
      · rw [if_neg h3] at h
        simp only [Option.some.injEq] at h
        exact ⟨h1, h2, h.symm⟩
    · rw [if_neg h2] at h
      exact absurd h (by simp)
  · rw [if_neg h1] at h
    exact absurd h (by simp)

/-- Claim C6: every identifier in the dependency projection, key or
value, denotes a model-typed node (in `current`, or in `base` when absent
from `current`). -/
theorem claim_C6 (m : RecceState)
    (hc : (keysOf (currentNodes m)).Nodup) (hb : (keysOf (baseNodes m)).Nodup)
    (ms : List (String × String)) (hms : get_modified_models m = .ok ms)
    (deps : List (String × List String)) (hdeps : get_relevant_dependencies m ms = .ok deps) :
    ∀ id l, (id, l) ∈ deps →
      isModelIn (currentNodes m) (baseNodes m) id ∧
      ∀ q ∈ l, isModelIn (currentNodes m) (baseNodes m) q := by
  have hModelMs : ∀ k, (dget ms k).isSome → isModelIn (currentNodes m) (baseNodes m) k := by
    intro k hk
    rw [dget_modified_models hc hb hms k] at hk
    rcases hcur : dget (currentNodes m) k with _ | nd
    · rw [hcur] at hk
      simp only at hk
      rcases hbk : dget (baseNodes m) k with _ | nd2
      · rw [hbk] at hk
        simp at hk
      · rw [hbk] at hk
        simp only at hk
        by_cases hrt : nd2.resource_type = some "model"
        · simp [isModelIn, hcur, hbk, hrt]
        · simp [removedFn, hcur, hrt] at hk
    · rw [hcur] at hk
      simp only at hk
      by_cases hrt : nd.resource_type = some "model"
      · simp [isModelIn, hcur, hrt]
      · simp [classifyFn, hrt] at hk
  intro id l hmem
  rw [get_relevant_dependencies_ok_eq hdeps] at hmem
  rcases List.mem_append.mp hmem with hmem | hmem
  · obtain ⟨p, hp, heq⟩ := List.mem_map.mp hmem
    rw [Prod.mk.injEq] at heq
    obtain ⟨hid, hl⟩ := heq
    constructor
    · apply hModelMs
      rw [dget_isSome_iff, ← hid]
      exact List.mem_map_of_mem Prod.fst hp
    · intro q hq
      rw [← hl] at hq
      have hq2 := (List.mem_filter.mp hq).2
      have hq3 : nodeResourceType (currentNodes m) q = some "model" := by
        simpa using hq2
      rw [nodeResourceType] at hq3
      obtain ⟨nd, hnd, hrt⟩ := Option.bind_eq_some.mp hq3
      simp [isModelIn, hnd, hrt]
  · obtain ⟨nd, hnd, hfn⟩ := (mem_filterMapShape (unclFn ms) (currentNodes m) id l).mp hmem
    obtain ⟨h1, h2, h3⟩ := unclFn_eq_some hfn
    constructor
    · simp [isModelIn, dget_of_mem hc hnd, h2]
    · intro q hq
      rw [h3] at hq
      have hq2 := (List.mem_filter.mp hq).2
      apply hModelMs
      simpa using hq2

theorem claim_C6_witness :
    isModelIn (currentNodes exampleState) (baseNodes exampleState) "m.proj.a" ∧
    ∀ q ∈ ([] : List String), isModelIn (currentNodes exampleState) (baseNodes exampleState) q :=
  claim_C6 exampleState (by decide) (by decide) [("m.proj.a", "added")] rfl
    [("m.proj.a", [])] rfl "m.proj.a" [] (by simp)

/-- Claim C8: when every record carries a `resource_type`, classification
and dependency projection succeed regardless of missing `checksum` or
`depends_on` keys, an absent checksum chain evaluating to `none` and an
absent dependency list to `[]`. -/
theorem claim_C8 (m : RecceState)
    (h1 : ∀ p ∈ currentNodes m, (p.2.resource_type).isSome)
    (h2 : ∀ p ∈ baseNodes m, (p.2.resource_type).isSome) :
    (∃ ms, get_modified_models m = .ok ms) ∧
    (∀ ms, get_modified_models m = .ok ms → ∃ ds, get_relevant_dependencies m ms = .ok ds) ∧
    (∀ (nodes : Snapshot) (id : String) (nd : NodeData), dget nodes id = some nd →
      nd.checksum = none → nodeChecksum nodes id = none) ∧
    (∀ nd : NodeData, nd.depends_on = none → dataDependsOn nd = []) := by
  refine ⟨?_, ?_, ?_, ?_⟩
  · obtain ⟨cur, hcur⟩ :=
      (classifyCurrent_ok_iff (currentNodes m) (baseNodes m) (currentNodes m)).mpr h1
    obtain ⟨rem, hrem⟩ :=
      (classifyBase_ok_iff (currentNodes m) (baseNodes m)).mpr fun p hp _ => h2 p hp
    exact ⟨cur ++ rem, by rw [get_modified_models]; simp only [hcur, hrem]⟩
  · intro ms hms
    obtain ⟨uncl, hun⟩ :=
      (depsForUnclassified_ok_iff ms (currentNodes m)).mpr fun p hp _ => h1 p hp
    exact ⟨depsForClassified (currentNodes m) ms ++ uncl, by
      rw [get_relevant_dependencies]; simp only [hun]⟩
  · intro nodes id nd hd hchk
    rw [nodeChecksum, hd]
    simp [hchk]
  · intro nd h
    simp [dataDependsOn, h]

theorem claim_C8_witness : ∃ ms, get_modified_models exampleState3 = .ok ms :=
  (claim_C8 exampleState3 (by decide) (by decide)).1

/-- Claim C9: a record lacking `resource_type` in `current` (or in `base`
while absent from `current`) makes classification fail with a key-access
error. -/
theorem claim_C9 (m : RecceState)
    (h : (∃ p ∈ currentNodes m, p.2.resource_type = none) ∨
         (∃ p ∈ baseNodes m, dget (currentNodes m) p.1 = none ∧ p.2.resource_type = none)) :
    ∃ e, get_modified_models m = .error e := by
  rcases h with ⟨p, hp, hrt⟩ | ⟨p, hp, hnin, hrt⟩
  · have hno : ¬∃ r, classifyCurrent (currentNodes m) (baseNodes m) (currentNodes m) = .ok r := by
      rw [classifyCurrent_ok_iff]
      push_neg
      exact ⟨p, hp, by simp [hrt]⟩
    rcases hcc : classifyCurrent (currentNodes m) (baseNodes m) (currentNodes m) with e | r
    · exact ⟨e, by rw [get_modified_models]; simp only [hcc]⟩
    · exact absurd ⟨r, hcc⟩ hno
  · rcases hcc : classifyCurrent (currentNodes m) (baseNodes m) (currentNodes m) with e | r
    · exact ⟨e, by rw [get_modified_models]; simp only [hcc]⟩
    · have hno : ¬∃ r2, classifyBase (currentNodes m) (baseNodes m) = .ok r2 := by
        rw [classifyBase_ok_iff]
        push_neg
        exact ⟨p, hp, hnin, by simp [hrt]⟩
      rcases hcb : classifyBase (currentNodes m) (baseNodes m) with e | r2
      · exact ⟨e, by rw [get_modified_models]; simp only [hcc, hcb]⟩
      · exact absurd ⟨r2, hcb⟩ hno

theorem claim_C9_witness : ∃ e, get_modified_models exampleState4 = .error e :=
  claim_C9 exampleState4 (Or.inl ⟨("m.proj.d", ⟨none, none, none⟩), by decide, rfl⟩)

/-- A check with a missing `is_checked` or `description` key makes the
sections builder raise. -/
theorem checkSections_error :
    ∀ {checks : List Check},
      (∃ c ∈ checks, c.is_checked = none ∨ c.description = none) →
      ∃ e, checkSections checks = .error e := by
  intro checks
  induction checks with
  | nil =>
    rintro ⟨c, hc, -⟩
    simp at hc
  | cons c0 rest ih =>
    rintro ⟨c, hc, hbad⟩
    rw [checkSections]
    rcases hic : c0.is_checked with _ | ic
    · exact ⟨_, rfl⟩
    · simp only
      rcases hdesc : c0.description with _ | desc
      · exact ⟨_, rfl⟩
      · simp only
        rcases hnm : c0.name with _ | nm
        · exact ⟨_, rfl⟩
        · simp only
          have hcrest : c ∈ rest := by
            rcases List.mem_cons.mp hc with rfl | hmem
            · rcases hbad with hb | hb
              · rw [hic] at hb
                cases hb
              · rw [hdesc] at hb
                cases hb
            · exact hmem
          obtain ⟨e, he⟩ := ih ⟨c, hcrest, hbad⟩
          exact ⟨e, by simp only [he]⟩

/-- Claim C10: a check record lacking `description` or `is_checked` makes
Markdown composition fail with a key-access error instead of substituting
a placeholder or default. -/
theorem claim_C10 (current_date : String) (checks : List Check)
    (ms : List (String × String)) (deps : List (String × List String))
    (h : ∃ c ∈ checks, c.is_checked = none ∨ c.description = none) :
    ∃ e, generate_markdown current_date checks ms deps = .error e := by
  rw [generate_markdown]
  rcases hcp : countPassed checks with e | n
  · exact ⟨e, by simp only⟩
  · simp only
    obtain ⟨e, he⟩ := checkSections_error h
    exact ⟨e, by simp only [he]⟩

theorem claim_C10_witness :
    ∃ e, generate_markdown "2026-01-01 00:00:00" [exampleCheck] [] [] = .error e :=
  claim_C10 "2026-01-01 00:00:00" [exampleCheck] [] []
    ⟨exampleCheck, by simp, Or.inl rfl⟩

end RecceReview
